import Mathlib

/-!
Shallow embedding of the rule-based NLP voice-command parser of this
repository (`src/backend/nlp/*.py`, `src/backend/schemas.py`) and proofs
about it.

Strings are modelled as `List Char`.  Python's `str.lower()`, the `re`
word/space/digit character classes and the concrete regular expressions used
by the source are modelled over the character repertoire that actually
occurs in the parser's lexicons, keyword tables and patterns (ASCII plus the
accented Spanish letters the source mentions).  Machine floats appearing as
`price_max` only ever hold values parsed from short decimal literals, so
they are modelled as `ℚ`.
-/

namespace VoiceParser

/-- Strings as lists of characters. -/
abbrev Str := List Char

/-! ### Character classes (Python `re` classes restricted to the parser's repertoire) -/

/-- Python's `\s` class: whitespace characters. -/
def isSpaceChar (c : Char) : Bool :=
  c = ' ' || c = '\t' || c = '\n' || c = '\r' || c = '\x0b' || c = '\x0c'

/-- ASCII decimal digit, as matched by `\d` on the inputs considered. -/
def isDigitChar (c : Char) : Bool := c.isDigit

/-- The lower-case accented letters appearing in the source's tables. -/
def accentLower : List Char := ['á', 'é', 'í', 'ó', 'ú', 'ñ', 'ã']

/-- The upper-case accented letters appearing in the source's tables. -/
def accentUpper : List Char := ['Á', 'É', 'Í', 'Ó', 'Ú', 'Ñ', 'Ã']

/-- Letters (cased characters) of the modelled repertoire. -/
def isLetterChar (c : Char) : Bool :=
  c.isAlpha || accentLower.contains c || accentUpper.contains c

/-- Python's `\w` class on the modelled repertoire: letters, digits, underscore. -/
def isWordChar (c : Char) : Bool :=
  isLetterChar c || c.isDigit || c = '_'

/-- `str.lower()` on the modelled repertoire. -/
def lowerChar (c : Char) : Char :=
  if c.isUpper then c.toLower
  else if c = 'Á' then 'á'
  else if c = 'É' then 'é'
  else if c = 'Í' then 'í'
  else if c = 'Ó' then 'ó'
  else if c = 'Ú' then 'ú'
  else if c = 'Ñ' then 'ñ'
  else if c = 'Ã' then 'ã'
  else c

/-- `str.upper()` on the modelled repertoire (used by `str.title()`). -/
def upperChar (c : Char) : Char :=
  if c.isLower then c.toUpper
  else if c = 'á' then 'Á'
  else if c = 'é' then 'É'
  else if c = 'í' then 'Í'
  else if c = 'ó' then 'Ó'
  else if c = 'ú' then 'Ú'
  else if c = 'ñ' then 'Ñ'
  else if c = 'ã' then 'Ã'
  else c

/-- `text.lower()`. -/
def lowerStr (t : Str) : Str := t.map lowerChar

/-- `str.strip()`: drop whitespace from both ends. -/
def strip (t : Str) : Str :=
  ((t.dropWhile isSpaceChar).reverse.dropWhile isSpaceChar).reverse

/-! ### Splitting, joining, whitespace collapsing -/

/-- Worker for splitting while dropping empty pieces: `acc` holds the
    (reversed) current token. -/
def splitAux (p : Char → Bool) (acc : Str) : Str → List Str
  | [] => if acc = [] then [] else [acc.reverse]
  | c :: cs =>
    if p c then
      if acc = [] then splitAux p [] cs else acc.reverse :: splitAux p [] cs
    else splitAux p (c :: acc) cs

/-- Split on a separator class, dropping empty pieces. -/
def splitDrop (p : Char → Bool) (t : Str) : List Str := splitAux p [] t

/-- Python `t.split(" ")` followed by dropping empty tokens (the source's
    `[tok for tok in t.split(" ") if tok ...]`). -/
def splitOnSpace (t : Str) : List Str := splitDrop (fun c => c = ' ') t

/-- Python `" ".join(tokens)`. -/
def joinSpace : List Str → Str
  | [] => []
  | [x] => x
  | x :: y :: ys => x ++ ' ' :: joinSpace (y :: ys)

/-- `re.sub(r"\s+", " ", t).strip()`: every whitespace run becomes a single
    space and the ends are trimmed — i.e. the whitespace-separated tokens
    joined by single spaces. -/
def collapseWS (t : Str) : Str := joinSpace (splitDrop isSpaceChar t)

/-! ### Word-boundary matching (`\b...\b` regexes on literal words) -/

/-- Is the first character of the pattern a word character (`true` for the
    empty pattern, which never occurs in the source)? -/
def headIsWordChar (w : Str) : Bool :=
  match w with
  | [] => true
  | c :: _ => isWordChar c

/-- Is the last character of the pattern a word character? -/
def lastIsWordChar (w : Str) : Bool :=
  match w.getLast? with
  | some c => isWordChar c
  | none => true

/-- The `\b` after a literal pattern `w`, looking at the remaining text:
    a boundary holds iff exactly one side is a word character (end of text
    counts as a non-word side). -/
def boundaryAfterOk (w : Str) (rest : Str) : Bool :=
  match rest with
  | [] => lastIsWordChar w
  | d :: _ => lastIsWordChar w != isWordChar d

/-- `\b w \b` matches at the start of suffix `s`, where `pw` records whether
    the character just before `s` is a word character (`false` at the start
    of the text). -/
def boundedHere (w : Str) (pw : Bool) (s : Str) : Bool :=
  w.isPrefixOf s && (pw != headIsWordChar w) && boundaryAfterOk w (s.drop w.length)

/-- Does `p` hold at some suffix of the text?  `pw` tracks whether the
    previous character is a word character. -/
def anySuffix (p : Bool → Str → Bool) : Bool → Str → Bool
  | pw, [] => p pw []
  | pw, c :: cs => p pw (c :: cs) || anySuffix p (isWordChar c) cs

/-- `re.search(rf"\b{re.escape(w)}\b", t)` as a Boolean. -/
def hasBounded (w : Str) (t : Str) : Bool :=
  anySuffix (fun pw s => boundedHere w pw s) false t

/-- Plain substring containment (Python `needle in hay`). -/
def isSubstring (needle : Str) : Str → Bool
  | [] => needle.isPrefixOf ([] : Str)
  | c :: cs => needle.isPrefixOf (c :: cs) || isSubstring needle cs

/-- Worker for `subBounded`: when `skip` is positive the current character
    belongs to already-matched (replaced) text and is dropped; otherwise
    a bounded occurrence of `w` starting here becomes one space and the
    remaining `w.length - 1` matched characters are scheduled for dropping.
    The left context after a match is the last character of `w`. -/
def subBoundedAux (w : Str) : Nat → Bool → Str → Str
  | _, _, [] => []
  | k + 1, pw, _ :: cs => subBoundedAux w k pw cs
  | 0, pw, c :: cs =>
    if boundedHere w pw (c :: cs) then
      ' ' :: subBoundedAux w (w.length - 1) (lastIsWordChar w) cs
    else
      c :: subBoundedAux w 0 (isWordChar c) cs

/-- `re.sub(rf"\b{re.escape(w)}\b", " ", t)` for a literal `w`:
    each bounded occurrence becomes one space. -/
def subBounded (w : Str) (pw : Bool) (t : Str) : Str := subBoundedAux w 0 pw t

/-- `re.search(r"\b(\d+)\b", t)`: the first word-bounded run of digits.
    A position inside a digit run has a word character (a digit) on its
    left, so failed runs are walked through with `pw = true`. -/
def findDigitToken : Bool → Str → Option Str
  | _, [] => none
  | pw, c :: cs =>
    if isDigitChar c then
      if !pw && boundaryAfterOk (c :: cs.takeWhile isDigitChar) (cs.dropWhile isDigitChar)
      then some (c :: cs.takeWhile isDigitChar)
      else findDigitToken true cs
    else findDigitToken (isWordChar c) cs

/-- `int(...)` on a run of decimal digits. -/
def natOfDigits (s : Str) : Nat :=
  s.foldl (fun n c => 10 * n + (c.toNat - ('0').toNat)) 0

/-! ### Quantity extraction (`src/backend/nlp/quantity.py`) -/

/-- `NUMBER_WORDS_EN`, in the source's (insertion) order. -/
def NUMBER_WORDS_EN : List (Str × Nat) :=
  [("one".data, 1), ("two".data, 2), ("three".data, 3), ("four".data, 4),
   ("five".data, 5), ("six".data, 6), ("seven".data, 7), ("eight".data, 8),
   ("nine".data, 9), ("ten".data, 10)]

/-- `NUMBER_WORDS_ES`, in the source's (insertion) order. -/
def NUMBER_WORDS_ES : List (Str × Nat) :=
  [("uno".data, 1), ("una".data, 1), ("dos".data, 2), ("tres".data, 3),
   ("cuatro".data, 4), ("cinco".data, 5), ("seis".data, 6), ("siete".data, 7),
   ("ocho".data, 8), ("nueve".data, 9), ("diez".data, 10)]

/-- The number-word table selected by `language == "es"`. -/
def numberWordsFor (language : Str) : List (Str × Nat) :=
  if language = ("es".data) then NUMBER_WORDS_ES else NUMBER_WORDS_EN

/-- The digit pass of `extract_quantity`: prefer the first bare integer
    token; when positive, it becomes the quantity and every bounded
    occurrence of that exact token is blanked. -/
def digitPass (t : Str) : Nat × Str :=
  match findDigitToken false t with
  | some run =>
    let q := natOfDigits run
    if 0 < q then (q, subBounded run false t) else (1, t)
  | none => (1, t)

/-- The number-word pass of `extract_quantity`: the first table word found
    as a whole word overrides the quantity, is blanked, and the scan stops. -/
def wordPass : List (Str × Nat) → Nat × Str → Nat × Str
  | [], p => p
  | (w, v) :: rest, p =>
    if hasBounded w p.2 then (v, subBounded w false p.2)
    else wordPass rest p

/-- `extract_quantity(text, language)` from `src/backend/nlp/quantity.py`. -/
def extract_quantity (text : Str) (language : Str) : Nat × Str :=
  let t := lowerStr text
  let p := wordPass (numberWordsFor language) (digitPass t)
  (p.1, collapseWS p.2)

/-! ### Intent classification (`src/backend/nlp/intent.py`) -/

/-- The per-language trigger-phrase table. -/
structure ActionLexicon where
  add : List Str
  remove : List Str
  modify : List Str
  search : List Str

def LEXICON_EN : ActionLexicon :=
  ⟨[("add".data), ("need".data), ("buy".data), ("get".data), ("grab".data), ("pick up".data)],
   [("remove".data), ("delete".data), ("drop".data), ("take off".data), ("clear".data)],
   [("change".data), ("modify".data), ("update".data), ("set".data)],
   [("search".data), ("find".data), ("look for".data), ("show".data)]⟩

def LEXICON_ES : ActionLexicon :=
  ⟨[("agrega".data), ("añade".data), ("anade".data), ("necesito".data), ("compra".data),
    ("comprar".data), ("quiero".data)],
   [("elimina".data), ("borra".data), ("quita".data), ("remueve".data)],
   [("cambia".data), ("modifica".data), ("actualiza".data), ("pon".data),
    ("establece".data), ("ajusta".data)],
   [("busca".data), ("encuentra".data), ("buscar".data), ("muestra".data)]⟩

/-- `_has_any(text, words)`: some word matches as a whole word. -/
def hasAny (t : Str) (ws : List Str) : Bool := ws.any (fun w => hasBounded w t)

/-- After `\s+` has consumed its (maximal) run: does a word-bounded `add`
    follow?  Used by the negated-add pattern `...\s+add\b`. -/
def spacesThenAdd (s : Str) : Bool :=
  match s with
  | c :: cs =>
    isSpaceChar c &&
      (let r := (c :: cs).dropWhile isSpaceChar
       ("add".data).isPrefixOf r && boundaryAfterOk ("add".data) (r.drop 3))
  | [] => false

/-- The three English alternatives `do\s*not|don't|dont` followed by
    `\s+add\b`, tried at the start of suffix `s` (an existence check, so
    alternative order is immaterial). -/
def negAddEnHere (s : Str) : Bool :=
  (("do".data).isPrefixOf s &&
     (let r := (s.drop 2).dropWhile isSpaceChar
      ("not".data).isPrefixOf r && spacesThenAdd (r.drop 3)))
  || (("don't".data).isPrefixOf s && spacesThenAdd (s.drop 5))
  || (("dont".data).isPrefixOf s && spacesThenAdd (s.drop 4))

/-- Spanish `no\s+agregues?\b` tried at the start of suffix `s`: the
    optional `s` participates in the trailing boundary. -/
def noAgreguesHere (s : Str) : Bool :=
  ("no".data).isPrefixOf s &&
    (match s.drop 2 with
     | c :: cs =>
       isSpaceChar c &&
         (let r := (c :: cs).dropWhile isSpaceChar
          ("agregue".data).isPrefixOf r &&
            (match r.drop 7 with
             | [] => true
             | 's' :: rest2 =>
               (match rest2 with
                | [] => true
                | d :: _ => !isWordChar d)
             | d :: _ => !isWordChar d))
     | [] => false)

/-- `_is_negated_add(text, language)` from `src/backend/nlp/intent.py`.
    Both patterns open with `\b` on a word character, so a match site needs
    a non-word left context. -/
def isNegatedAdd (t : Str) (language : Str) : Bool :=
  if language = ("es".data) then
    anySuffix (fun pw s => !pw && noAgreguesHere s) false t
  else
    anySuffix (fun pw s => !pw && negAddEnHere s) false t

/-- After the number alternative of the quantity-noun pattern: `\b\s+\w+`
    (the boundary is subsumed by the mandatory whitespace). -/
def spacesThenWordChar (s : Str) : Bool :=
  match s with
  | c :: cs =>
    isSpaceChar c &&
      (match (c :: cs).dropWhile isSpaceChar with
       | d :: _ => isWordChar d
       | [] => false)
  | [] => false

/-- The ten number-word alternatives of the quantity-noun regex: these are
    hard-coded English words in the source, for both languages. -/
def quantityNounWords : List Str :=
  [("one".data), ("two".data), ("three".data), ("four".data), ("five".data),
   ("six".data), ("seven".data), ("eight".data), ("nine".data), ("ten".data)]

/-- One alternative of `\b(one|...|ten|\d+)\b\s+\w+` matching at suffix `s`
    (for `\d+`, only the maximal digit run can satisfy the boundary). -/
def quantityNounHere (s : Str) : Bool :=
  quantityNounWords.any (fun w => w.isPrefixOf s && spacesThenWordChar (s.drop w.length))
  || (match s with
      | c :: cs => isDigitChar c && spacesThenWordChar (cs.dropWhile isDigitChar)
      | [] => false)

/-- `re.search` of the quantity-noun pattern `\b(one|two|...|ten|\d+)\b\s+\w+`. -/
def hasQuantityNoun (t : Str) : Bool :=
  anySuffix (fun pw s => !pw && quantityNounHere s) false t

/-- The stop phrases, checked as plain substrings. -/
def stopPhrases : List Str :=
  [("how".data), ("why".data), ("what".data), ("make".data), ("recipe".data)]

/-- `detect_intent(text, language)` from `src/backend/nlp/intent.py`. -/
def detect_intent (text : Str) (language : Str) : Str :=
  let t := strip (lowerStr text)
  let lex := if language = ("es".data) then LEXICON_ES else LEXICON_EN
  if stopPhrases.any (fun p => isSubstring p t) then ("invalid".data)
  else if isNegatedAdd t language then ("search".data)
  else if hasAny t lex.search then ("search".data)
  else if hasAny t lex.remove then ("remove".data)
  else if hasAny t lex.modify then ("modify".data)
  else if hasAny t lex.add || hasQuantityNoun t then ("add".data)
  else ("invalid".data)

/-! ### Filter extraction (`src/backend/nlp/filters.py`) -/

/-- The `Filters` pydantic model of `src/backend/schemas.py` (defaults
    `brand = ""`, `price_max = 0`, `size = ""`). -/
structure Filters where
  brand : Str
  price_max : ℚ
  size : Str
deriving DecidableEq

/-- `SIZE_KEYWORDS`, in the source's (insertion) order.  The second key is
    the mojibake literal `pequeÃ±o` exactly as it appears in the source
    file. -/
def SIZE_KEYWORDS : List (Str × Str) :=
  [(("small".data), ("small".data)),
   (("pequeÃ±o".data), ("small".data)),
   (("chico".data), ("small".data)),
   (("medium".data), ("medium".data)),
   (("mediano".data), ("medium".data)),
   (("large".data), ("large".data)),
   (("grande".data), ("large".data)),
   (("500ml".data), ("500ml".data)),
   (("1l".data), ("1L".data)),
   (("1 l".data), ("1L".data)),
   (("2kg".data), ("2kg".data)),
   (("2 kg".data), ("2kg".data)),
   (("1kg".data), ("1kg".data))]

/-- The unit alternatives `ml|l|kg|g|oz|lb`, in alternation order. -/
def sizeUnitAlts : List Str :=
  [("ml".data), ("l".data), ("kg".data), ("g".data), ("oz".data), ("lb".data)]

/-- The numeric value of `\d+` followed by an optional `\.\d+`:
    the digit run, the optional fraction, and the remaining text. -/
def numberToken (s : Str) : Str × Str × Str :=
  let r1 := s.takeWhile isDigitChar
  let rest1 := s.dropWhile isDigitChar
  match rest1 with
  | '.' :: d :: ds =>
    if isDigitChar d then
      (r1, d :: ds.takeWhile isDigitChar, (d :: ds).dropWhile isDigitChar)
    else (r1, [], rest1)
  | _ => (r1, [], rest1)

/-- `float(...)` on a captured `\d+(\.\d+)?` group, as an exact rational:
    the digits before the point, plus the fraction digits over a power of
    ten. -/
def ratOfParts (intPart fracPart : Str) : ℚ :=
  mkRat (natOfDigits intPart * 10 ^ fracPart.length + natOfDigits fracPart)
    (10 ^ fracPart.length)

/-- The tail `\s*(?:ml|l|kg|g|oz|lb)` plus the closing `\b` of the generic
    size regex: maximal whitespace, then the first unit alternative that
    fits and satisfies the boundary.  Returns the matched tail. -/
def sizeUnitTail (rest : Str) : Option Str :=
  let sp := rest.takeWhile isSpaceChar
  let r2 := rest.dropWhile isSpaceChar
  match sizeUnitAlts.find? (fun u => u.isPrefixOf r2 && boundaryAfterOk u (r2.drop u.length)) with
  | some u => some (sp ++ u)
  | none => none

/-- The generic size regex `\b(\d+(?:\.\d+)?\s*(?:ml|l|kg|g|oz|lb))\b`
    matching at suffix `s` with left context `pw`: the fractional branch is
    tried before the branch without it (greedy `(?:\.\d+)?`).  Returns the
    captured group. -/
def sizeGenericHere (pw : Bool) (s : Str) : Option Str :=
  if pw then none
  else match s with
    | c :: cs =>
      if isDigitChar c then
        let r1 := c :: cs.takeWhile isDigitChar
        let rest1 := cs.dropWhile isDigitChar
        match rest1 with
        | '.' :: d :: ds =>
          if isDigitChar d then
            let r2 := d :: ds.takeWhile isDigitChar
            let restF := (d :: ds).dropWhile isDigitChar
            match sizeUnitTail restF with
            | some tail => some (r1 ++ '.' :: r2 ++ tail)
            | none =>
              match sizeUnitTail rest1 with
              | some tail => some (r1 ++ tail)
              | none => none
          else
            match sizeUnitTail rest1 with
            | some tail => some (r1 ++ tail)
            | none => none
        | _ =>
          match sizeUnitTail rest1 with
          | some tail => some (r1 ++ tail)
          | none => none
      else none
    | [] => none

/-- Leftmost search of the generic size regex. -/
def findSizeGeneric : Bool → Str → Option Str
  | pw, [] => sizeGenericHere pw []
  | pw, c :: cs =>
    match sizeGenericHere pw (c :: cs) with
    | some cap => some cap
    | none => findSizeGeneric (isWordChar c) cs

/-- `_extract_size(text)`: the keyword table first, then the generic
    trailing-unit regex with spaces removed from the captured group. -/
def extractSize (text : Str) : Str :=
  let t := lowerStr text
  match SIZE_KEYWORDS.find? (fun kv => hasBounded kv.1 t) with
  | some kv => kv.2
  | none =>
    match findSizeGeneric false t with
    | some cap => cap.filter (fun c => c ≠ ' ')
    | none => []

/-- The English and Spanish price trigger alternatives, in alternation
    order.  No two of them can begin at the same text position, so the
    first prefix hit is the regex's choice. -/
def priceAltsEN : List Str :=
  [("under".data), ("below".data), ("less than".data), ("cheaper than".data), ("<=".data)]

def priceAltsES : List Str :=
  [("menor que".data), ("bajo".data), ("menos de".data), ("por debajo de".data),
   ("hasta".data), ("<=".data)]

/-- The lazy `.*?(\d+(?:\.\d+)?)` after a price trigger: the first digit
    reachable without crossing a newline starts the captured number. -/
def priceNumberFrom : Str → Option ℚ
  | [] => none
  | c :: cs =>
    if isDigitChar c then
      let p := numberToken (c :: cs)
      some (ratOfParts p.1 p.2.1)
    else if c = '\n' then none
    else priceNumberFrom cs

/-- Leftmost search of `(?:trigger1|...|triggerN).*?(\d+(?:\.\d+)?)`:
    a position where a trigger fits but no number follows fails, and the
    scan moves one character right. -/
def searchPrice (alts : List Str) : Str → Option ℚ
  | [] => none
  | c :: cs =>
    match alts.find? (fun a => a.isPrefixOf (c :: cs)) with
    | some a =>
      match priceNumberFrom ((c :: cs).drop a.length) with
      | some v => some v
      | none => searchPrice alts cs
    | none => searchPrice alts cs

/-- `_extract_price_max(text)`: the English pattern, then the Spanish one,
    default `0.0`. -/
def extractPriceMax (text : Str) : ℚ :=
  let t := lowerStr text
  match searchPrice priceAltsEN t with
  | some v => v
  | none =>
    match searchPrice priceAltsES t with
    | some v => v
    | none => 0

/-- The brand trigger alternatives `brand|from|marca|de` (pairwise distinct
    first letters, so at most one fits at a position). -/
def brandAlts : List Str :=
  [("brand".data), ("from".data), ("marca".data), ("de".data)]

/-- The character class `[\w\-]` of the brand capture group. -/
def isBrandTailChar (c : Char) : Bool := isWordChar c || c = '-'

/-- The `\s+([a-zA-Z0-9][\w\-]+)` tail of the brand regex: mandatory
    whitespace, an ASCII alphanumeric, then at least one more `[\w\-]`
    character (greedy). -/
def brandGroupAfter (rest : Str) : Option Str :=
  match rest with
  | c :: cs =>
    if isSpaceChar c then
      match (c :: cs).dropWhile isSpaceChar with
      | d :: ds =>
        if d.isAlphanum then
          match ds.takeWhile isBrandTailChar with
          | [] => none
          | e :: es => some (d :: e :: es)
        else none
      | [] => none
    else none
  | [] => none

/-- Leftmost search of `\b(?:brand|from|marca|de)\s+([a-zA-Z0-9][\w\-]+)`. -/
def findBrand : Bool → Str → Option Str
  | _, [] => none
  | pw, c :: cs =>
    match (if pw then none else brandAlts.find? (fun a => a.isPrefixOf (c :: cs))) with
    | some a =>
      match brandGroupAfter ((c :: cs).drop a.length) with
      | some g => some g
      | none => findBrand (isWordChar c) cs
    | none => findBrand (isWordChar c) cs

/-- Is `c` a cased character (Python `str.title()` upper-cases a cased
    character that follows a non-cased one)? -/
def isCasedChar (c : Char) : Bool := isLetterChar c

/-- `str.title()` on the modelled repertoire. -/
def titleAux : Bool → Str → Str
  | _, [] => []
  | prevCased, c :: cs =>
    (if prevCased then lowerChar c else upperChar c) :: titleAux (isCasedChar c) cs

def titleStr (s : Str) : Str := titleAux false s

/-- `_extract_brand(text)`.  The dynamic catalog pass reads
    `backend/mock_products.json`, which is not part of this source
    snapshot: `path.open` raises, the `except Exception` branch logs and
    falls through, and the static fallback group is returned title-cased. -/
def extractBrand (text : Str) : Str :=
  let t := lowerStr text
  match findBrand false t with
  | some g => titleStr g
  | none => []

/-- `extract_filters(text)` from `src/backend/nlp/filters.py`. -/
def extract_filters (text : Str) : Filters :=
  ⟨extractBrand text, extractPriceMax text, extractSize text⟩

/-! ### Language detection (`src/backend/nlp/language.py`) -/

/-- The Spanish keyword fallback list. -/
def spanishKeywords : List Str :=
  [("necesito".data), ("agrega".data), ("añade".data), ("anade".data),
   ("busca".data), ("quita".data), ("borra".data), ("elimina".data)]

/-- `detect_language(text, hint)`.  A non-empty hint whose lower-casing
    starts with `es`/`en` decides; otherwise the accent and keyword
    heuristics run, defaulting to English. -/
def detect_language (text : Str) (hint : Option Str) : Str :=
  let fromHint : Option Str :=
    match hint with
    | some h =>
      if h = [] then none
      else
        let l := lowerStr h
        if ("es".data).isPrefixOf l then some ("es".data)
        else if ("en".data).isPrefixOf l then some ("en".data)
        else none
    | none => none
  match fromHint with
  | some r => r
  | none =>
    let t := lowerStr text
    if (['á', 'é', 'í', 'ó', 'ú', 'ñ']).any (fun ch => t.contains ch) then ("es".data)
    else if spanishKeywords.any (fun w => hasBounded w t) then ("es".data)
    else ("en".data)

/-! ### Item-phrase extraction (`src/backend/nlp/parser.py`, `extract_item`) -/

/-- The character class kept by `re.sub(r"[^a-zA-Z0-9áéíóúñÁÉÍÓÚÑ\s\-]", " ", text)`. -/
def keptChar (c : Char) : Bool :=
  c.isAlphanum || (['á', 'é', 'í', 'ó', 'ú', 'ñ', 'Á', 'É', 'Í', 'Ó', 'Ú', 'Ñ']).contains c
    || isSpaceChar c || c = '-'

/-- Worker for `re.sub` on an alternation of whole words
    (`\b(w1|w2|...)\b` → one space): the first alternative that fits with
    both boundaries wins; `skip` drops the remaining matched characters. -/
def subAnyAux (ws : List Str) : Nat → Bool → Str → Str
  | _, _, [] => []
  | k + 1, pw, _ :: cs => subAnyAux ws k pw cs
  | 0, pw, c :: cs =>
    match ws.find? (fun w => boundedHere w pw (c :: cs)) with
    | some w => ' ' :: subAnyAux ws (w.length - 1) (lastIsWordChar w) cs
    | none => c :: subAnyAux ws 0 (isWordChar c) cs

def subAnyBounded (ws : List Str) (t : Str) : Str := subAnyAux ws 0 false t

/-- Worker for `re.sub(r"\b\d+\b", " ", t)`: every word-bounded digit run
    becomes one space; runs that fail a boundary are emitted unchanged
    (their inner positions have a digit on the left). -/
def subDigitsAux : Nat → Bool → Str → Str
  | _, _, [] => []
  | k + 1, pw, _ :: cs => subDigitsAux k pw cs
  | 0, pw, c :: cs =>
    if isDigitChar c then
      let run := c :: cs.takeWhile isDigitChar
      if !pw && boundaryAfterOk run (cs.dropWhile isDigitChar) then
        ' ' :: subDigitsAux (run.length - 1) true cs
      else c :: subDigitsAux 0 true cs
    else c :: subDigitsAux 0 (isWordChar c) cs

def subDigitTokens (t : Str) : Str := subDigitsAux 0 false t

/-- The English container-word alternation, in the source's order. -/
def containersEN : List Str :=
  [("bottle".data), ("bottles".data), ("pack".data), ("packs".data), ("bag".data),
   ("bags".data), ("box".data), ("boxes".data), ("cans".data), ("can".data)]

/-- The Spanish container-word alternation, in the source's order. -/
def containersES : List Str :=
  [("botella".data), ("botellas".data), ("paquete".data), ("paquetes".data),
   ("bolsa".data), ("bolsas".data), ("caja".data), ("cajas".data),
   ("latas".data), ("lata".data)]

/-- `stopwords_en` (a Python set: only membership matters). -/
def stopwordsEN : List Str :=
  [("a".data), ("an".data), ("the".data), ("some".data), ("of".data), ("to".data),
   ("for".data), ("please".data), ("me".data), ("i".data), ("we".data), ("need".data),
   ("want".data), ("buy".data), ("add".data), ("remove".data), ("delete".data),
   ("change".data), ("set".data), ("update".data), ("modify".data), ("search".data),
   ("find".data), ("look".data), ("show".data), ("get".data)]

/-- `stopwords_es` (a Python set: only membership matters). -/
def stopwordsES : List Str :=
  [("un".data), ("una".data), ("unos".data), ("unas".data), ("el".data), ("la".data),
   ("los".data), ("las".data), ("de".data), ("del".data), ("por".data), ("para".data),
   ("porfavor".data), ("favor".data), ("yo".data), ("necesito".data), ("quiero".data),
   ("compra".data), ("agrega".data), ("añade".data), ("anade".data), ("quita".data),
   ("borra".data), ("elimina".data), ("cambia".data), ("modifica".data),
   ("actualiza".data), ("busca".data), ("muestra".data)]

/-- The stop-word set selected by `language == "es"`. -/
def stopwordsFor (language : Str) : List Str :=
  if language = ("es".data) then stopwordsES else stopwordsEN

/-- The English trigger words of `LEXICON_EN` that are also stop-listed in
    `stopwords_en` (the remaining triggers — grab, "pick up", drop,
    "take off", clear — are not). -/
def droppedTriggersEN : List Str :=
  [("add".data), ("need".data), ("buy".data), ("get".data), ("remove".data),
   ("delete".data), ("change".data), ("modify".data), ("update".data), ("set".data),
   ("search".data), ("find".data), ("show".data)]

/-- The Spanish trigger words of `LEXICON_ES` that are also stop-listed in
    `stopwords_es` (the remaining triggers — comprar, remueve, pon,
    establece, ajusta, encuentra, buscar — are not). -/
def droppedTriggersES : List Str :=
  [("agrega".data), ("añade".data), ("anade".data), ("necesito".data),
   ("compra".data), ("quiero".data), ("elimina".data), ("borra".data),
   ("quita".data), ("cambia".data), ("modifica".data), ("actualiza".data),
   ("busca".data), ("muestra".data)]

/-- The fully cleaned text of `extract_item` just before tokenization
    (steps before the stop-word filter are language-independent). -/
def itemCleaned (text : Str) : Str :=
  let t := lowerStr (text.map (fun c => if keptChar c then c else ' '))
  let t := collapseWS t
  let t := strip (subDigitTokens t)
  let t := strip (subAnyBounded containersEN t)
  let t := strip (subAnyBounded containersES t)
  let t := strip (subAnyBounded [("of".data), ("de".data)] t)
  t

/-- The surviving tokens of `extract_item`. -/
def itemTokens (text : Str) (language : Str) : List Str :=
  (splitOnSpace (itemCleaned text)).filter
    (fun tok => decide (tok ∉ stopwordsFor language))

/-- `extract_item(text, language)` from `src/backend/nlp/parser.py`. -/
def extract_item (text : Str) (language : Str) : Str :=
  strip (joinSpace (itemTokens text language))

/-! ### Categorization (`src/backend/nlp/categories.py`) -/

/-- `CATEGORY_KEYWORDS`, in the source's (dict insertion) order; the
    per-category keyword sets are matched by substring, so their internal
    order is immaterial. -/
def CATEGORY_KEYWORDS : List (Str × List Str) :=
  [(("dairy".data), [("milk".data), ("cheese".data), ("yogurt".data), ("butter".data)]),
   (("produce".data),
    [("apple".data), ("apples".data), ("banana".data), ("bananas".data),
     ("lettuce".data), ("tomato".data), ("tomatoes".data), ("onion".data),
     ("onions".data)]),
   (("snacks".data),
    [("chips".data), ("cookies".data), ("crackers".data), ("granola".data)]),
   (("beverages".data),
    [("water".data), ("juice".data), ("soda".data), ("coffee".data), ("tea".data)]),
   (("bakery".data), [("bread".data), ("bagel".data), ("croissant".data)]),
   (("pantry".data),
    [("rice".data), ("pasta".data), ("beans".data), ("flour".data), ("sugar".data),
     ("salt".data)])]

/-- `categorize_item(item)` from `src/backend/nlp/categories.py`. -/
def categorize_item (item : Str) : Str :=
  if item = [] then ("other".data)
  else
    let il := lowerStr item
    match CATEGORY_KEYWORDS.find? (fun cw => cw.2.any (fun w => isSubstring w il)) with
    | some cw => cw.1
    | none => ("other".data)

/-! ### Command assembly (`src/backend/nlp/parser.py`, `parse_voice_command`) -/

/-- The `ParsedVoiceCommand` pydantic model of `src/backend/schemas.py`. -/
structure ParsedVoiceCommand where
  action : Str
  item : Str
  quantity : Nat
  category : Str
  filters : Filters
  language : Str
  raw_text : Str
deriving DecidableEq

/-- `parse_voice_command(text, language_hint)` from
    `src/backend/nlp/parser.py`, rule-based path.  The optional
    `_openai_parse` branch returns `None` unless the `OPENAI_API_KEY` and
    `ENABLE_OPENAI_PARSER` environment switches enable it, and the spec
    fixes the rule-based pipeline as the sole behavior under test, so the
    fallback path is the modelled one.  The `Filters(...)` construction
    passes only `brand` and `price_max`; `size` takes the pydantic default
    `""`.  The conditional `quantity = max(1, quantity)` for empty-item
    remove/modify is absorbed by the unconditional `max(1, quantity)` of
    the final construction. -/
def parse_voice_command (text : Str) (language_hint : Option Str) : ParsedVoiceCommand :=
  let language := detect_language text language_hint
  let action := detect_intent text language
  let filters := extract_filters text
  let qc := extract_quantity text language
  let item := extract_item qc.2 language
  let category := categorize_item item
  ⟨action, item, max 1 qc.1, category,
   ⟨filters.brand, filters.price_max, []⟩, language, text⟩

/-! ## Lemmas -/

/-- When some table word matches the working copy, the word pass yields the
    value of the first (table-order) matching word. -/
theorem wordPass_of_find_some (words : List (Str × Nat)) (p : Nat × Str) (w : Str) (v : Nat)
    (h : words.find? (fun wv => hasBounded wv.1 p.2) = some (w, v)) :
    (wordPass words p).1 = v := by
  induction words with
  | nil => simp [List.find?] at h
  | cons hd tl ih =>
    obtain ⟨w', v'⟩ := hd
    rw [List.find?_cons] at h
    split at h
    · rw [Option.some.injEq, Prod.mk.injEq] at h
      simp only [wordPass]
      rw [if_pos (by simpa using (by assumption : hasBounded (w', v').1 p.2 = true))]
      exact h.2
    · simp only [wordPass]
      rw [if_neg (by simpa using (by assumption : hasBounded (w', v').1 p.2 = false))]
      exact ih h

/-- When no table word matches the working copy, the word pass is the
    identity. -/
theorem wordPass_of_find_none (words : List (Str × Nat)) (p : Nat × Str)
    (h : words.find? (fun wv => hasBounded wv.1 p.2) = none) :
    wordPass words p = p := by
  induction words with
  | nil => rfl
  | cons hd tl ih =>
    obtain ⟨w', v'⟩ := hd
    rw [List.find?_cons] at h
    split at h
    · exact absurd h (by simp)
    · simp only [wordPass]
      rw [if_neg (by simpa using (by assumption : hasBounded (w', v').1 p.2 = false))]
      exact ih h

/-! ## Claims -/

/-- C8: the number-word pass of `extract_quantity` runs on the
    digit-stripped working copy and unconditionally overrides the
    digit-derived quantity: whenever the first table word found there is
    `w` with value `v`, the returned quantity is `v`, regardless of any
    digit token (a text containing both a bare digit token and a number
    word therefore ends with the number-word's value). -/
theorem extract_quantity_word_overrides (text language : Str) (w : Str) (v : Nat)
    (h : (numberWordsFor language).find?
        (fun wv => hasBounded wv.1 (digitPass (lowerStr text)).2) = some (w, v)) :
    (extract_quantity text language).1 = v := by
  simpa [extract_quantity] using
    wordPass_of_find_some (numberWordsFor language) (digitPass (lowerStr text)) w v h

/-- Witness for C8: "buy 3 two apples" contains the digit token `3` and the
    number word `two`; the result is 2, not 3. -/
theorem extract_quantity_word_overrides_witness :
    (extract_quantity ("buy 3 two apples".data) ("en".data)).1 = 2 :=
  extract_quantity_word_overrides ("buy 3 two apples".data) ("en".data)
    ("two".data) 2 (by decide)

/-- C6 counterexample: on "2 3" the digit pass removes only the first digit
    token, the residual is "3", and re-extraction yields 3, not the default
    1 — quantity extraction is not idempotent on residual re-extraction. -/
theorem extract_quantity_not_idempotent :
    (extract_quantity ("2 3".data) ("en".data)).2 = ("3".data) ∧
    (extract_quantity ("3".data) ("en".data)).1 ≠ 1 := by decide

/-- C6 amended: re-running the quantity extractor on the residual yields
    the default 1 provided the residual contains no further word-bounded
    digit token and no number word of the language's table. -/
theorem extract_quantity_residual_default (text language : Str)
    (h1 : findDigitToken false (lowerStr ((extract_quantity text language).2)) = none)
    (h2 : (numberWordsFor language).find?
        (fun wv => hasBounded wv.1 (lowerStr ((extract_quantity text language).2))) = none) :
    (extract_quantity ((extract_quantity text language).2) language).1 = 1 := by
  generalize hg : (extract_quantity text language).2 = r at h1 h2
  have hd : digitPass (lowerStr r) = (1, lowerStr r) := by
    simp [digitPass, h1]
  simp only [extract_quantity]
  rw [hd, wordPass_of_find_none _ _ (by simpa using h2)]

/-- Witness for C6 amended: the residual of "buy 3 apples" is "buy apples",
    which has no digit token and no number word, so re-extraction defaults
    to 1. -/
theorem extract_quantity_residual_default_witness :
    (extract_quantity ((extract_quantity ("buy 3 apples".data) ("en".data)).2)
      ("en".data)).1 = 1 :=
  extract_quantity_residual_default ("buy 3 apples".data) ("en".data)
    (by decide) (by decide)

/-- C7 counterexample: the residual of `extract_quantity("buy 3 apples",
    "en")` is not the spec's `"buy  apples"` (two spaces): the final
    whitespace collapse leaves a single space. -/
theorem extract_quantity_example_ne_spec :
    extract_quantity ("buy 3 apples".data) ("en".data) ≠ (3, ("buy  apples".data)) := by
  decide

/-- C7 amended: `extract_quantity("buy 3 apples", "en")` is `(3, "buy
    apples")` — the digit token removed and whitespace collapsed to single
    spaces. -/
theorem extract_quantity_example :
    extract_quantity ("buy 3 apples".data) ("en".data) = (3, ("buy apples".data)) := by
  decide

/-- C2: the filters of a parsed command are extracted from the original,
    un-stripped text — `price_max` always equals `_extract_price_max` of
    the raw input, quantity stripping notwithstanding — and in particular
    "cheaper than 4 dollars" parses with `price_max = 4.0` even though `4`
    is a quantity-shaped token. -/
theorem parse_price_before_quantity :
    (∀ (text : Str) (hint : Option Str),
      (parse_voice_command text hint).filters.price_max = extractPriceMax text) ∧
    (parse_voice_command ("cheaper than 4 dollars".data) none).filters.price_max = 4 := by
  refine ⟨fun text hint => rfl, by decide⟩

/-- The intent classifier only ever returns one of the five actions. -/
theorem detect_intent_mem (text language : Str) :
    detect_intent text language ∈
      [("add".data), ("remove".data), ("modify".data), ("search".data), ("invalid".data)] := by
  simp only [detect_intent]
  split_ifs <;> simp

/-- C3: every parse terminates in a well-formed command: the quantity is at
    least 1 and the action is one of the five defined values.  (All stages
    of the embedded pipeline are total functions; the source's only
    fallible branch is the optional external parser, whose failures are
    caught and replaced by this rule-based result.) -/
theorem parse_well_formed (text : Str) (hint : Option Str) (_h : text ≠ []) :
    1 ≤ (parse_voice_command text hint).quantity ∧
      (parse_voice_command text hint).action ∈
        [("add".data), ("remove".data), ("modify".data), ("search".data), ("invalid".data)] :=
  ⟨Nat.le_max_left 1 _, detect_intent_mem text (detect_language text hint)⟩

/-- Witness for C3 at "add milk". -/
theorem parse_well_formed_witness :
    1 ≤ (parse_voice_command ("add milk".data) none).quantity ∧
      (parse_voice_command ("add milk".data) none).action ∈
        [("add".data), ("remove".data), ("modify".data), ("search".data), ("invalid".data)] :=
  parse_well_formed ("add milk".data) none (by decide)

/-- A stop-phrase hit makes the intent `invalid`, before any other rule. -/
theorem stop_phrase_invalid (text language : Str)
    (h : stopPhrases.any (fun p => isSubstring p (strip (lowerStr text))) = true) :
    detect_intent text language = ("invalid".data) := by
  simp only [detect_intent]
  rw [if_pos h]

/-- C9: any of the five stop phrases occurring as a substring of the
    lower-cased, trimmed text forces `invalid`, for every language and
    overriding every trigger word. -/
theorem stop_phrase_overrides (text language : Str) (p : Str)
    (hp : p ∈ stopPhrases) (h : isSubstring p (strip (lowerStr text)) = true) :
    detect_intent text language = ("invalid".data) :=
  stop_phrase_invalid text language (List.any_eq_true.2 ⟨p, hp, h⟩)

/-- Witness for C9: `detect_intent("how do I add milk", "en") = "invalid"`. -/
theorem stop_phrase_overrides_witness :
    detect_intent ("how do I add milk".data) ("en".data) = ("invalid".data) :=
  stop_phrase_overrides ("how do I add milk".data) ("en".data) ("how".data)
    (by decide) (by decide)

/-- A found pattern is in particular a substring. -/
theorem isSubstring_of_isPrefixOf (w t : Str) (h : w.isPrefixOf t = true) :
    isSubstring w t = true := by
  cases t <;> simp [isSubstring] <;> simp_all

/-- Dropping the first pattern character preserves substring containment. -/
theorem isSubstring_tail (c : Char) (w t : Str) (h : isSubstring (c :: w) t = true) :
    isSubstring w t = true := by
  induction t with
  | nil => simp [isSubstring, List.isPrefixOf] at h
  | cons d ds ih =>
    simp only [isSubstring, Bool.or_eq_true] at h ⊢
    rcases h with h | h
    · simp only [List.isPrefixOf_cons₂, Bool.and_eq_true] at h
      exact Or.inr (isSubstring_of_isPrefixOf w ds h.2)
    · exact Or.inr (ih h)

/-- C10: "show" is an English search trigger, yet any text containing
    "show" (in its lower-cased, trimmed form) also contains the stop phrase
    "how", so `detect_intent` returns `invalid` — the "show" search trigger
    is unreachable. -/
theorem show_trigger_unreachable (text : Str)
    (h : isSubstring ("show".data) (strip (lowerStr text)) = true) :
    ("show".data) ∈ LEXICON_EN.search ∧
      detect_intent text ("en".data) = ("invalid".data) := by
  refine ⟨by decide, stop_phrase_invalid text ("en".data) (List.any_eq_true.2
    ⟨("how".data), by decide, isSubstring_tail 's' ("how".data) _ h⟩)⟩

/-- Witness for C10 at "show milk". -/
theorem show_trigger_unreachable_witness :
    ("show".data) ∈ LEXICON_EN.search ∧
      detect_intent ("show milk".data) ("en".data) = ("invalid".data) :=
  show_trigger_unreachable ("show milk".data) (by decide)

/-- C5 counterexample: "dos" is a Spanish number word of the table, "dos
    manzanas" has no stop phrase, no negation and no trigger, yet
    `detect_intent` classifies it `invalid`, not `add`: the quantity-noun
    regex hard-codes the English number words for both languages. -/
theorem spanish_number_word_not_add :
    (("dos".data, 2) ∈ NUMBER_WORDS_ES) ∧
      detect_intent ("dos manzanas".data) ("es".data) ≠ ("add".data) ∧
      detect_intent ("dos manzanas".data) ("es".data) = ("invalid".data) := by
  decide

/-- C5 amended: for both languages, a text with no stop phrase, no
    negated-add and no search/remove/modify trigger that matches the
    quantity-noun pattern — an *English* number word one–ten or a digit,
    followed by a word — is classified `add`. -/
theorem quantity_noun_add (text language : Str)
    (h1 : stopPhrases.any (fun p => isSubstring p (strip (lowerStr text))) = false)
    (h2 : isNegatedAdd (strip (lowerStr text)) language = false)
    (h3 : hasAny (strip (lowerStr text))
        (if language = ("es".data) then LEXICON_ES else LEXICON_EN).search = false)
    (h4 : hasAny (strip (lowerStr text))
        (if language = ("es".data) then LEXICON_ES else LEXICON_EN).remove = false)
    (h5 : hasAny (strip (lowerStr text))
        (if language = ("es".data) then LEXICON_ES else LEXICON_EN).modify = false)
    (h6 : hasQuantityNoun (strip (lowerStr text)) = true) :
    detect_intent text language = ("add".data) := by
  simp only [detect_intent]
  rw [if_neg (by simp [h1]), if_neg (by simp [h2]), if_neg (by simp [h3]),
    if_neg (by simp [h4]), if_neg (by simp [h5]), if_pos (by simp [h6])]

/-- Witness for C5 amended at "two apples" (English). -/
theorem quantity_noun_add_witness :
    detect_intent ("two apples".data) ("en".data) = ("add".data) :=
  quantity_noun_add ("two apples".data) ("en".data)
    (by decide) (by decide) (by decide) (by decide) (by decide) (by decide)

/-- C1: the Filter Extractor finds `size = "large"` in "add large milk",
    but the assembled command's `filters.size` is `""`: the
    `Filters(brand=..., price_max=...)` construction in
    `parse_voice_command` discards the extracted size (the schema's
    default applies), contradicting the documented output contract. -/
theorem parse_drops_size :
    (extract_filters ("add large milk".data)).size = ("large".data) ∧
      (parse_voice_command ("add large milk".data) none).filters.size = ([] : Str) ∧
      (parse_voice_command ("add large milk".data) none).filters.brand =
        (extract_filters ("add large milk".data)).brand := by
  decide

/-! ### Token-level analysis of `extract_item` (for C4) -/

/-- Every token produced by the splitting worker is non-empty, free of
    separator characters, and drawn from the accumulator or the input. -/
theorem splitAux_mem (p : Char → Bool) (t : Str) : ∀ (acc tok : Str),
    tok ∈ splitAux p acc t → (∀ c ∈ acc, p c = false) →
    tok ≠ [] ∧ ∀ c ∈ tok, p c = false ∧ (c ∈ acc ∨ c ∈ t) := by
  induction t with
  | nil =>
    intro acc tok h hacc
    simp only [splitAux] at h
    split at h
    · simp at h
    · rw [List.mem_singleton] at h
      subst h
      refine ⟨by simpa using (by assumption : ¬acc = []), fun c hc => ?_⟩
      rw [List.mem_reverse] at hc
      exact ⟨hacc c hc, Or.inl hc⟩
  | cons d ds ih =>
    intro acc tok h hacc
    simp only [splitAux] at h
    by_cases hd : p d = true
    · rw [if_pos hd] at h
      by_cases hacc0 : acc = []
      · rw [if_pos hacc0] at h
        obtain ⟨hne, hc⟩ := ih [] tok h (by simp)
        exact ⟨hne, fun c hct => ⟨(hc c hct).1,
          Or.inr (List.mem_cons_of_mem d ((hc c hct).2.resolve_left (by simp)))⟩⟩
      · rw [if_neg hacc0] at h
        rcases List.mem_cons.1 h with h | h
        · subst h
          refine ⟨by simpa using hacc0, fun c hc => ?_⟩
          rw [List.mem_reverse] at hc
          exact ⟨hacc c hc, Or.inl hc⟩
        · obtain ⟨hne, hc⟩ := ih [] tok h (by simp)
          exact ⟨hne, fun c hct => ⟨(hc c hct).1,
            Or.inr (List.mem_cons_of_mem d ((hc c hct).2.resolve_left (by simp)))⟩⟩
    · rw [if_neg hd] at h
      obtain ⟨hne, hc⟩ := ih (d :: acc) tok h
        (by intro c hc; rcases List.mem_cons.1 hc with rfl | hc
            · simpa using hd
            · exact hacc c hc)
      refine ⟨hne, fun c hct => ⟨(hc c hct).1, ?_⟩⟩
      rcases (hc c hct).2 with hmem | hmem
      · rcases List.mem_cons.1 hmem with rfl | hmem
        · exact Or.inr (List.mem_cons_self c ds)
        · exact Or.inl hmem
      · exact Or.inr (List.mem_cons_of_mem d hmem)

/-- Splitting walks through a separator-free block by accumulating it. -/
theorem splitAux_append (p : Char → Bool) (x : Str) (hx : ∀ c ∈ x, p c = false) :
    ∀ (acc r : Str), splitAux p acc (x ++ r) = splitAux p (x.reverse ++ acc) r := by
  induction x with
  | nil => intro acc r; simp
  | cons c cs ih =>
    intro acc r
    have hc : p c = false := hx c (List.mem_cons_self c cs)
    simp only [List.cons_append, splitAux]
    rw [if_neg (by simp [hc])]
    rw [List.append_eq, ih (fun a ha => hx a (List.mem_cons_of_mem c ha)) (c :: acc) r]
    congr 1
    simp [List.reverse_cons, List.append_assoc]

/-- Splitting is a left inverse of joining for non-empty separator-free
    tokens. -/
theorem splitDrop_joinSpace (p : Char → Bool) (hsp : p ' ' = true) :
    ∀ (L : List Str), (∀ tok ∈ L, tok ≠ [] ∧ ∀ c ∈ tok, p c = false) →
    splitDrop p (joinSpace L) = L := by
  intro L
  induction L with
  | nil => intro; rfl
  | cons x xs ih =>
    intro hL
    obtain ⟨hxne, hxc⟩ := hL x (List.mem_cons_self x xs)
    cases xs with
    | nil =>
      show splitAux p [] (joinSpace [x]) = [x]
      have : joinSpace [x] = x ++ [] := by simp [joinSpace]
      rw [this, splitAux_append p x hxc [] []]
      simp only [splitAux, List.append_nil]
      rw [if_neg (by simpa using hxne)]
      simp
    | cons y ys =>
      show splitAux p [] (joinSpace (x :: y :: ys)) = x :: y :: ys
      have : joinSpace (x :: y :: ys) = x ++ (' ' :: joinSpace (y :: ys)) := rfl
      rw [this, splitAux_append p x hxc [] _]
      simp only [splitAux, List.append_nil]
      rw [if_pos hsp, if_neg (by simpa using hxne)]
      rw [List.reverse_reverse]
      exact congrArg (x :: ·) (ih (fun tok ht => hL tok (List.mem_cons_of_mem x ht)))

/-- `dropWhile` is the identity when the head does not satisfy the
    predicate. -/
theorem dropWhile_eq_self_of_head (p : Char → Bool) (l : Str)
    (h : ∀ c ∈ l.head?, p c = false) : l.dropWhile p = l := by
  cases l with
  | nil => rfl
  | cons c cs => simp [List.dropWhile_cons, h c rfl]

/-- `strip` is the identity on texts with non-whitespace ends. -/
theorem strip_eq_self (t : Str) (h1 : ∀ c ∈ t.head?, isSpaceChar c = false)
    (h2 : ∀ c ∈ t.getLast?, isSpaceChar c = false) : strip t = t := by
  unfold strip
  rw [dropWhile_eq_self_of_head _ t h1,
    dropWhile_eq_self_of_head _ t.reverse (by rw [List.head?_reverse]; exact h2),
    List.reverse_reverse]

/-- Joining non-empty tokens yields a non-empty text. -/
theorem joinSpace_ne_nil (x : Str) (xs : List Str) (hx : x ≠ []) :
    joinSpace (x :: xs) ≠ [] := by
  cases xs with
  | nil => simpa [joinSpace] using hx
  | cons y ys =>
    intro h
    exact hx (List.append_eq_nil.mp h).1

/-- The first character of a join of non-empty whitespace-free tokens is
    not whitespace. -/
theorem joinSpace_head (L : List Str)
    (hL : ∀ tok ∈ L, tok ≠ [] ∧ ∀ c ∈ tok, isSpaceChar c = false) :
    ∀ c ∈ (joinSpace L).head?, isSpaceChar c = false := by
  cases L with
  | nil => simp [joinSpace]
  | cons x xs =>
    obtain ⟨hxne, hxc⟩ := hL x (List.mem_cons_self x xs)
    intro c hc
    cases xs with
    | nil =>
      exact hxc c (List.mem_of_mem_head? hc)
    | cons y ys =>
      rw [show joinSpace (x :: y :: ys) = x ++ ' ' :: joinSpace (y :: ys) from rfl,
        List.head?_append_of_ne_nil _ hxne] at hc
      exact hxc c (List.mem_of_mem_head? hc)

/-- The last character of a join of non-empty whitespace-free tokens is
    not whitespace. -/
theorem joinSpace_getLast (L : List Str)
    (hL : ∀ tok ∈ L, tok ≠ [] ∧ ∀ c ∈ tok, isSpaceChar c = false) :
    ∀ c ∈ (joinSpace L).getLast?, isSpaceChar c = false := by
  induction L with
  | nil => simp [joinSpace]
  | cons x xs ih =>
    obtain ⟨hxne, hxc⟩ := hL x (List.mem_cons_self x xs)
    intro c hc
    cases xs with
    | nil =>
      exact hxc c (List.mem_of_mem_getLast? hc)
    | cons y ys =>
      have hyne : joinSpace (y :: ys) ≠ [] :=
        joinSpace_ne_nil y ys (hL y (by simp)).1
      rw [show joinSpace (x :: y :: ys) = x ++ ' ' :: joinSpace (y :: ys) from rfl,
        List.getLast?_append_of_ne_nil _ (by simp),
        show (' ' :: joinSpace (y :: ys)) = [' '] ++ joinSpace (y :: ys) from rfl,
        List.getLast?_append_of_ne_nil _ hyne] at hc
      exact ih (fun tok ht => hL tok (List.mem_cons_of_mem x ht)) c hc

/-- Characters of a join come from a token or are the inserted space. -/
theorem mem_joinSpace (c : Char) : ∀ (L : List Str),
    c ∈ joinSpace L → (∃ tok ∈ L, c ∈ tok) ∨ c = ' ' := by
  intro L
  induction L with
  | nil => simp [joinSpace]
  | cons x xs ih =>
    intro h
    cases xs with
    | nil => exact Or.inl ⟨x, by simp, h⟩
    | cons y ys =>
      rw [show joinSpace (x :: y :: ys) = x ++ ' ' :: joinSpace (y :: ys) from rfl,
        List.mem_append] at h
      rcases h with h | h
      · exact Or.inl ⟨x, by simp, h⟩
      · rcases List.mem_cons.1 h with rfl | h
        · exact Or.inr rfl
        · rcases ih h with ⟨tok, ht, hc⟩ | h
          · exact Or.inl ⟨tok, List.mem_cons_of_mem x ht, hc⟩
          · exact Or.inr h

/-- `strip` only removes characters. -/
theorem mem_strip (t : Str) (c : Char) (h : c ∈ strip t) : c ∈ t := by
  unfold strip at h
  rw [List.mem_reverse] at h
  have h2 := (List.dropWhile_sublist _).subset h
  rw [List.mem_reverse] at h2
  exact (List.dropWhile_sublist _).subset h2

/-- Characters of a whole-word alternation substitution come from the input
    or are the replacement space. -/
theorem mem_subAnyAux (ws : List Str) (c : Char) : ∀ (t : Str) (k : Nat) (pw : Bool),
    c ∈ subAnyAux ws k pw t → c ∈ t ∨ c = ' ' := by
  intro t
  induction t with
  | nil => intro k pw h; cases k <;> simp [subAnyAux] at h
  | cons d ds ih =>
    intro k pw h
    cases k with
    | succ k' =>
      simp only [subAnyAux] at h
      rcases ih k' pw h with h | h
      · exact Or.inl (List.mem_cons_of_mem d h)
      · exact Or.inr h
    | zero =>
      simp only [subAnyAux] at h
      split at h
      · rcases List.mem_cons.1 h with rfl | h
        · exact Or.inr rfl
        · rcases ih _ _ h with h | h
          · exact Or.inl (List.mem_cons_of_mem d h)
          · exact Or.inr h
      · rcases List.mem_cons.1 h with rfl | h
        · exact Or.inl (List.mem_cons_self c ds)
        · rcases ih _ _ h with h | h
          · exact Or.inl (List.mem_cons_of_mem d h)
          · exact Or.inr h

/-- Characters of the digit-token substitution come from the input or are
    the replacement space. -/
theorem mem_subDigitsAux (c : Char) : ∀ (t : Str) (k : Nat) (pw : Bool),
    c ∈ subDigitsAux k pw t → c ∈ t ∨ c = ' ' := by
  intro t
  induction t with
  | nil => intro k pw h; cases k <;> simp [subDigitsAux] at h
  | cons d ds ih =>
    intro k pw h
    cases k with
    | succ k' =>
      simp only [subDigitsAux] at h
      rcases ih k' pw h with h | h
      · exact Or.inl (List.mem_cons_of_mem d h)
      · exact Or.inr h
    | zero =>
      simp only [subDigitsAux] at h
      split_ifs at h
      · rcases List.mem_cons.1 h with rfl | h
        · exact Or.inr rfl
        · rcases ih _ _ h with h | h
          · exact Or.inl (List.mem_cons_of_mem d h)
          · exact Or.inr h
      · rcases List.mem_cons.1 h with rfl | h
        · exact Or.inl (List.mem_cons_self c ds)
        · rcases ih _ _ h with h | h
          · exact Or.inl (List.mem_cons_of_mem d h)
          · exact Or.inr h
      · rcases List.mem_cons.1 h with rfl | h
        · exact Or.inl (List.mem_cons_self c ds)
        · rcases ih _ _ h with h | h
          · exact Or.inl (List.mem_cons_of_mem d h)
          · exact Or.inr h

/-- After the whitespace collapse, the only whitespace character left is
    the plain space. -/
theorem onlySpace_collapseWS (t : Str) :
    ∀ c ∈ collapseWS t, isSpaceChar c = true → c = ' ' := by
  intro c hc hs
  rcases mem_joinSpace c _ hc with ⟨tok, htok, hct⟩ | h
  · have := (splitAux_mem isSpaceChar t [] tok htok (by simp)).2 c hct
    exact absurd hs (by simp [this.1])
  · exact h

/-- Every stage of `itemCleaned` preserves the only-space property: its
    result's whitespace characters are all plain spaces. -/
theorem onlySpace_itemCleaned (text : Str) :
    ∀ c ∈ itemCleaned text, isSpaceChar c = true → c = ' ' := by
  intro c hc hs
  simp only [itemCleaned, subAnyBounded, subDigitTokens] at hc
  rcases mem_subAnyAux _ c _ _ _ (mem_strip _ c hc) with h | h
  case inr => exact h
  rcases mem_subAnyAux _ c _ _ _ (mem_strip _ c h) with h | h
  case inr => exact h
  rcases mem_subAnyAux _ c _ _ _ (mem_strip _ c h) with h | h
  case inr => exact h
  rcases mem_subDigitsAux c _ _ _ (mem_strip _ c h) with h | h
  case inr => exact h
  exact onlySpace_collapseWS _ c h hs

/-- The surviving item tokens are non-empty and whitespace-free. -/
theorem itemTokens_good (text language : Str) :
    ∀ tok ∈ itemTokens text language, tok ≠ [] ∧ ∀ c ∈ tok, isSpaceChar c = false := by
  intro tok ht
  have ht' : tok ∈ splitAux (fun c => decide (c = ' ')) [] (itemCleaned text) := by
    simpa only [itemTokens, splitOnSpace, splitDrop] using (List.mem_filter.1 ht).1
  obtain ⟨hne, hc⟩ := splitAux_mem _ (itemCleaned text) [] tok ht' (by simp)
  refine ⟨hne, fun c hct => ?_⟩
  have h1 := (hc c hct).1
  have h2 := (hc c hct).2.resolve_left (by simp)
  by_contra hsp
  have hsp' : isSpaceChar c = true := by simpa using hsp
  have hc' := onlySpace_itemCleaned text c h2 hsp'
  rw [hc'] at h1
  simp at h1

/-- The tokens of the item phrase returned by `extract_item` are exactly
    the filtered tokens of its cleaned text: the final join-and-strip does
    not create, merge or alter tokens. -/
theorem splitOnSpace_extract_item (text language : Str) :
    splitOnSpace (extract_item text language) = itemTokens text language := by
  have hgood := itemTokens_good text language
  have hgood' : ∀ tok ∈ itemTokens text language, tok ≠ [] ∧ ∀ c ∈ tok,
      (fun c => decide (c = ' ')) c = false := by
    intro tok ht
    obtain ⟨hne, hc⟩ := hgood tok ht
    refine ⟨hne, fun c hct => ?_⟩
    have hns := hc c hct
    simp only [decide_eq_false_iff_not]
    intro hcsp
    subst hcsp
    simp [isSpaceChar] at hns
  unfold extract_item
  rw [strip_eq_self _ (joinSpace_head _ hgood) (joinSpace_getLast _ hgood)]
  exact splitDrop_joinSpace _ (by decide) _ hgood'

/-- C4 counterexample: "grab" is an English add trigger, yet it is not in
    the stop-word set, so `extract_item("grab milk", "en")` keeps it as a
    token of the item phrase. -/
theorem extract_item_keeps_grab :
    ("grab".data) ∈ LEXICON_EN.add ∧
      ("grab".data) ∈ splitOnSpace (extract_item ("grab milk".data) ("en".data)) := by
  decide

/-- C4 amended: for each language, the trigger words that are stop-listed
    (`droppedTriggersEN` / `droppedTriggersES`) never appear as a token of
    the item phrase, for any input text; the remaining trigger words
    (grab, "pick up", drop, "take off", clear; comprar, remueve, pon,
    establece, ajusta, encuentra, buscar) are not stop-listed and can
    leak through. -/
theorem extract_item_drops_stop_triggers (text language w : Str)
    (h : (language = ("en".data) ∧ w ∈ droppedTriggersEN) ∨
         (language = ("es".data) ∧ w ∈ droppedTriggersES)) :
    w ∉ splitOnSpace (extract_item text language) := by
  have hw : w ∈ stopwordsFor language := by
    rcases h with ⟨hl, hw⟩ | ⟨hl, hw⟩
    · subst hl
      have hsub : ∀ x ∈ droppedTriggersEN, x ∈ stopwordsEN := by decide
      have heq : stopwordsFor ("en".data) = stopwordsEN := by
        unfold stopwordsFor
        rw [if_neg (by decide)]
      rw [heq]
      exact hsub w hw
    · subst hl
      have hsub : ∀ x ∈ droppedTriggersES, x ∈ stopwordsES := by decide
      have heq : stopwordsFor ("es".data) = stopwordsES := by
        unfold stopwordsFor
        rw [if_pos rfl]
      rw [heq]
      exact hsub w hw
  rw [splitOnSpace_extract_item]
  intro hmem
  have hns := (List.mem_filter.1 hmem).2
  simp only [decide_eq_true_eq] at hns
  exact hns hw

/-- Witness for C4 amended: "buy" (a stop-listed add trigger) never
    survives into the item phrase of "buy milk". -/
theorem extract_item_drops_stop_triggers_witness :
    ("buy".data) ∉ splitOnSpace (extract_item ("buy milk".data) ("en".data)) :=
  extract_item_drops_stop_triggers ("buy milk".data) ("en".data) ("buy".data)
    (Or.inl ⟨rfl, by decide⟩)

end VoiceParser
